import Mathlib

/-!
A shallow embedding of `pkg/resource/cluster/cluster_read.go` from the
`terraform-provider-eksctl` repository, together with proofs about the
reconciliation logic it implements: OIDC provider ARN derivation, cluster
selection from `eksctl get cluster` output, kubeconfig drift repair, and the
IAM identity mapping diff.

Go strings are modelled as `List Char`; external collaborators (the eksctl
process runner, the JSON decoder, the filesystem and the attribute store) are
modelled as explicit environment parameters, and the observable effects
(eksctl invocations, attribute writes, kubeconfig regeneration calls) are
returned as explicit traces.
-/

namespace EksctlRead

/-- Go strings, modelled as lists of characters. -/
abbrev GoString := List Char

/-- Embeds a Lean string literal into the `GoString` model. -/
def gs (s : String) : GoString := s.toList

/-- Models Go `strings.TrimPrefix s pre`: drops `pre` when it is a prefix of
`s` and otherwise returns `s` unchanged. -/
def goTrimLeading (s pre : GoString) : GoString :=
  if pre.isPrefixOf s then s.drop pre.length else s

/-- Models Go `strings.Split s sep` for a single-character separator
(`sep = string c`): the list of maximal segments of `s` between occurrences
of `c`.  `strings.Split` never returns an empty slice, and neither does this
function. -/
def goSplitChar (s : GoString) (c : Char) : List GoString :=
  match s with
  | [] => [[]]
  | a :: rest =>
    let r := goSplitChar rest c
    if a = c then [] :: r
    else
      match r with
      | [] => [[a]]
      | h :: t => (a :: h) :: t

/-- Models Go `strings.LastIndex s (string c)`: the index of the last
occurrence of `c` in `s`, or `-1` when `c` does not occur. -/
def goLastIndex (s : GoString) (c : Char) : Int :=
  match s with
  | [] => -1
  | a :: rest =>
    let r := goLastIndex rest c
    if 0 ≤ r then r + 1
    else if a = c then 0 else -1

/-- The Go slice `s[strings.LastIndex(s, string c)+1:]` used by
`GetOIDCProviderARN` to extract the issuer id. -/
def goAfterLast (s : GoString) (c : Char) : GoString :=
  s.drop (goLastIndex s c + 1).toNat

/-- The `Oidc` struct of `cluster_read.go`. -/
structure Oidc where
  Issuer : GoString
deriving DecidableEq

/-- The `Identity` struct of `cluster_read.go`. -/
structure Identity where
  Oidc : Oidc
deriving DecidableEq

/-- The `ResourcesVpcConfig` struct of `cluster_read.go`. -/
structure ResourcesVpcConfig where
  ClusterSecurityGroupId : GoString
  SecurityGroupIds : List GoString
deriving DecidableEq

/-- The `ClusterState` struct of `cluster_read.go`: one record of the JSON
array printed by `eksctl get cluster -o json`. -/
structure ClusterState where
  Name : GoString
  Identity : Identity
  RoleArn : GoString
  ResourcesVpcConfig : ResourcesVpcConfig
deriving DecidableEq

/-- `(s *ClusterState) GetOIDCProviderARN` from `cluster_read.go`:

* `account` is `strings.Split(strings.TrimPrefix(s.RoleArn, "arn:aws:iam::"), ":")[0]`;
* `region` is `strings.Split(strings.TrimPrefix(s.Identity.Oidc.Issuer, "https://oidc.eks."), ".")[0]`;
* `id` is `s.Identity.Oidc.Issuer[strings.LastIndex(s.Identity.Oidc.Issuer, "/")+1:]`;

and the result is
`fmt.Sprintf("arn:aws:iam::%s:oidc-provider/oidc.eks.%s.amazonaws.com/id/%s", account, region, id)`. -/
def ClusterState.GetOIDCProviderARN (s : ClusterState) : GoString :=
  let account := (goSplitChar (goTrimLeading s.RoleArn (gs "arn:aws:iam::")) ':').headI
  let region :=
    (goSplitChar (goTrimLeading s.Identity.Oidc.Issuer (gs "https://oidc.eks.")) '.').headI
  let issuerId := goAfterLast s.Identity.Oidc.Issuer '/'
  gs "arn:aws:iam::" ++ account ++ gs ":oidc-provider/oidc.eks." ++ region ++
    gs ".amazonaws.com/id/" ++ issuerId

/-- `(s *ClusterState) GetSecurityGroupIDs` from `cluster_read.go`. -/
def ClusterState.GetSecurityGroupIDs (s : ClusterState) : List GoString :=
  s.ResourcesVpcConfig.SecurityGroupIds

/-- The selection loop of `runGetCluster`: scan the parsed states in order and
keep the first one whose `Name` equals the requested cluster name (`for i :=
range states { if states[i].Name == cluster.Name { state = states[i]; break } }`). -/
def selectClusterState : List ClusterState → GoString → Option ClusterState
  | [], _ => none
  | s :: rest, n => if s.Name = n then some s else selectClusterState rest n

set_option linter.unusedVariables false in
/-- Models Go `strings.Replace s old new -1` for a nonempty pattern `old`:
replaces all non-overlapping occurrences of `old` by `new`, scanning left to
right.  (For `old = []` Go would interleave `new` everywhere; the source only
ever passes the nonempty patterns `"rolearn"` and `"userarn"`, so that case is
modelled as the identity.) -/
def goReplaceAll (s old new : GoString) : GoString :=
  if h : old = [] then s
  else
    match s with
    | [] => []
    | a :: rest =>
      if old.isPrefixOf (a :: rest) then
        new ++ goReplaceAll ((a :: rest).drop old.length) old new
      else
        a :: goReplaceAll rest old new
termination_by s.length
decreasing_by
  · simp only [List.length_drop, List.length_cons]
    cases old with
    | nil => exact absurd rfl h
    | cons o ot =>
      simp only [List.length_cons]
      omega
  · simp

/-- The textual key normalization performed by `runGetIAMIdentityMapping`:
`strings.Replace(iamJson.Output, "rolearn", "iamarn", -1)` followed by
`strings.Replace(iamJson1, "userarn", "iamarn", -1)`. -/
def normalizeIAMJson (s : GoString) : GoString :=
  goReplaceAll (goReplaceAll s (gs "rolearn") (gs "iamarn")) (gs "userarn") (gs "iamarn")

/-- One parsed entry of the (normalized) `eksctl get iamidentitymapping -o json`
output.  Go parses `[]map[string]interface{}`; an entry is represented by the
string value of its `"iamarn"` key (the only key the code inspects, used as the
sort key) together with the remaining key/value pairs of the map. -/
structure IAMMapping where
  iamarn : GoString
  rest : List (GoString × GoString)
deriving DecidableEq

/-- The comparison passed to both `sort.Slice` calls of
`readIAMIdentityMapping`: `x[i]["iamarn"].(string) < x[j]["iamarn"].(string)`,
as a non-strict order. -/
def iamLe (a b : IAMMapping) : Prop := a.iamarn ≤ b.iamarn

instance : DecidableRel iamLe := fun a b => by
  unfold iamLe; infer_instance

instance : IsTotal IAMMapping iamLe := ⟨fun a b => le_total a.iamarn b.iamarn⟩

instance : IsTrans IAMMapping iamLe := ⟨fun _ _ _ h1 h2 => le_trans h1 h2⟩

/-- The strict version of `iamLe`, used to reason about sort results. -/
def iamLt (a b : IAMMapping) : Prop := a.iamarn < b.iamarn

instance : IsAntisymm IAMMapping iamLt :=
  ⟨fun _ _ h1 h2 => absurd (lt_trans h1 h2) (lt_irrefl _)⟩

/-- Models the `sort.Slice(x, func(i, j) { return x[i]["iamarn"] < x[j]["iamarn"] })`
calls of `readIAMIdentityMapping`.  `sort.Slice` is a comparison sort; Go gives
no guarantee about the relative order of entries with equal keys (and uses a
stable insertion sort for the short slices involved here), so it is modelled by
a stable insertion sort ordered by `iamarn`. -/
def sortByIamarn (l : List IAMMapping) : List IAMMapping :=
  List.insertionSort iamLe l

/-- Models the result of `cmp.Diff a b` as used by `readIAMIdentityMapping`:
`none` (the empty diff string) when the two values are equal, and otherwise a
description of both values. -/
def cmpDiff (a b : List IAMMapping) : Option (List IAMMapping × List IAMMapping) :=
  if a = b then none else some (a, b)

/-- The diff computed at the end of `readIAMIdentityMapping`: both the remote
list and the locally declared list are sorted ascending by `iamarn`, then
structurally compared with `cmp.Diff`. -/
def readIAMDiff (iams current : List IAMMapping) :
    Option (List IAMMapping × List IAMMapping) :=
  cmpDiff (sortByIamarn iams) (sortByIamarn current)

/-- Modelled from the spec: the `Cluster` configuration struct and its
`IAMWithOIDCEnabled` method live outside the excerpted source file.  The read
path uses the cluster's name and region, and the result of parsing the
`iam.withOIDC` setting from `cluster.yaml` (which can fail); the parse result
is represented by the `IAMWithOIDCEnabled` field. -/
structure Cluster where
  Name : GoString
  Region : GoString
  IAMWithOIDCEnabled : Except GoString Bool

/-- The attribute-store keys written by the modelled functions
(`KeyOIDCProviderURL`, `KeyOIDCProviderARN`, `KeySecurityGroupIDs`; their
string values are defined outside the excerpted source). -/
inductive AttrKey
  | oidcProviderURL
  | oidcProviderARN
  | securityGroupIDs
deriving DecidableEq

/-- A value written to the attribute store by `d.Set`. -/
inductive AttrValue
  | str (s : GoString)
  | strList (l : List GoString)
deriving DecidableEq

/-- The observable effects of a run: the argument vectors of the eksctl
commands that were executed, and the attribute writes performed on the store. -/
structure Trace where
  eksctlCalls : List (List GoString)
  attrWrites : List (AttrKey × AttrValue)
deriving DecidableEq

/-- The external collaborators of the `runGet*` functions: the outcome of
`newEksctlCommandFromResourceWithRegionAndProfile`, the captured output of
`resource.Run`, and the JSON decoder (`json.Unmarshal`) for the two response
shapes. -/
structure EksctlEnv where
  newCommandOk : Except GoString Unit
  runResult : Except GoString GoString
  parseIAMList : GoString → Except GoString (List IAMMapping)
  parseClusterList : GoString → Except GoString (List ClusterState)

/-- `runGetCluster` from `cluster_read.go`: build the
`eksctl get cluster --name <name> -o json` command, run it, parse the output as
a list of `ClusterState`, and select the entry whose name matches exactly,
failing with `"no cluster found: <name>"` when there is none.  Returns the
result together with the list of eksctl invocations performed. -/
def runGetCluster (env : EksctlEnv) (cluster : Cluster) :
    Except GoString ClusterState × List (List GoString) :=
  let args := [gs "get", gs "cluster", gs "--name", cluster.Name, gs "-o", gs "json"]
  match env.newCommandOk with
  | .error e => (.error (gs "creating get imaidentitymapping command: " ++ e), [])
  | .ok _ =>
    match env.runResult with
    | .error e => (.error (gs "running get-cluster: " ++ e), [args])
    | .ok out =>
      match env.parseClusterList out with
      | .error e => (.error (gs "parsing get-cluster output as json : " ++ e), [args])
      | .ok states =>
        match selectClusterState states cluster.Name with
        | some state => (.ok state, [args])
        | none => (.error (gs "no cluster found: " ++ cluster.Name), [args])

/-- `runGetIAMIdentityMapping` from `cluster_read.go`: build the
`eksctl get iamidentitymapping --cluster <name> -o json` command, run it,
normalize the `rolearn`/`userarn` keys of the raw output to `iamarn`, and parse
the result.  Returns the result together with the eksctl invocations
performed. -/
def runGetIAMIdentityMapping (env : EksctlEnv) (cluster : Cluster) :
    Except GoString (List IAMMapping) × List (List GoString) :=
  let args :=
    [gs "get", gs "iamidentitymapping", gs "--cluster", cluster.Name, gs "-o", gs "json"]
  match env.newCommandOk with
  | .error e => (.error (gs "creating get imaidentitymapping command: " ++ e), [])
  | .ok _ =>
    match env.runResult with
    | .error e => (.error (gs "running get iamidentitymapping : " ++ e), [args])
    | .ok out =>
      match env.parseIAMList (normalizeIAMJson out) with
      | .error e => (.error (gs "parse iamidentitymapping : " ++ e), [args])
      | .ok iams => (.ok iams, [args])

/-- `readIAMIdentityMapping` from `cluster_read.go`.  `awsAuthConfigMap` is the
locally declared mapping list obtained from the set-typed store attribute
`d.Get(KeyAWSAuthConfigMap)`.  When `iam.withOIDC` is disabled the function
returns immediately; otherwise it fetches the remote mappings, sorts both lists
by `iamarn` and computes `cmp.Diff`, which is only logged — the function writes
nothing to the store and the diff never causes an error. -/
def readIAMIdentityMapping (cluster : Cluster) (awsAuthConfigMap : List IAMMapping)
    (env : EksctlEnv) : Except GoString Unit × Trace :=
  match cluster.IAMWithOIDCEnabled with
  | .error e => (.error (gs "reading iam.withOIDC setting from cluster.yaml: " ++ e), ⟨[], []⟩)
  | .ok false => (.ok (), ⟨[], []⟩)
  | .ok true =>
    match runGetIAMIdentityMapping env cluster with
    | (.error e, calls) =>
      (.error (gs "can not get iamidentitymapping from eks cluster: " ++ e), ⟨calls, []⟩)
    | (.ok iams, calls) =>
      let current := awsAuthConfigMap
      let _diff := readIAMDiff iams current
      (.ok (), ⟨calls, []⟩)

/-- `loadOIDCProviderURLAndARN` from `cluster_read.go`: gated on
`iam.withOIDC`; on success writes exactly the OIDC provider URL, the derived
OIDC provider ARN and the live security group id list back into the store. -/
def loadOIDCProviderURLAndARN (cluster : Cluster) (env : EksctlEnv) :
    Except GoString Unit × Trace :=
  match cluster.IAMWithOIDCEnabled with
  | .error e => (.error (gs "reading iam.withOIDC setting from cluster.yaml: " ++ e), ⟨[], []⟩)
  | .ok false => (.ok (), ⟨[], []⟩)
  | .ok true =>
    match runGetCluster env cluster with
    | (.error e, calls) =>
      (.error (gs "can not get iamidentitymapping from eks cluster: " ++ e), ⟨calls, []⟩)
    | (.ok state, calls) =>
      (.ok (), ⟨calls,
        [(AttrKey.oidcProviderURL, AttrValue.str state.Identity.Oidc.Issuer),
         (AttrKey.oidcProviderARN, AttrValue.str state.GetOIDCProviderARN),
         (AttrKey.securityGroupIDs, AttrValue.strList state.GetSecurityGroupIDs)]⟩)

/-- A `doWriteKubeconfig(d, name, region)` invocation recorded by the model of
`readCluster`. -/
structure KubeconfigCall where
  name : GoString
  region : GoString
deriving DecidableEq

/-- The collaborators of `readCluster`: the outcome of `readClusterInternal`
(which itself talks to AWS and parses the cluster config), the value of the
`kubeconfig_path` store attribute (`none` models a nil `d.Get` result), the
`os.IsNotExist(err)` outcome of `os.Stat` per path, the resolved cluster name
`m.getClusterName(cluster, d.Id())`, the outcome of `doWriteKubeconfig`, and
the collaborators of the IAM identity mapping read. -/
structure ReadClusterEnv where
  internalResult : Except GoString Cluster
  kubeconfigPathAttr : Option GoString
  statIsNotExist : GoString → Bool
  getClusterName : Cluster → GoString
  writeKubeconfigResult : Except GoString Unit
  eksctl : EksctlEnv
  awsAuthConfigMap : List IAMMapping

/-- The kubeconfig-repair block of `readCluster`: `path` is the
`kubeconfig_path` attribute (the empty string when the attribute is nil); when
it is non-empty and `os.Stat` reports `os.IsNotExist`, `doWriteKubeconfig(d,
m.getClusterName(cluster, d.Id()), cluster.Region)` is invoked.  Returns the
outcome of the block together with the `doWriteKubeconfig` invocations
performed. -/
def kubeconfigStep (env : ReadClusterEnv) (cluster : Cluster) :
    Except GoString Unit × List KubeconfigCall :=
  if env.kubeconfigPathAttr.getD [] ≠ [] then
    if env.statIsNotExist (env.kubeconfigPathAttr.getD []) then
      (env.writeKubeconfigResult, [⟨env.getClusterName cluster, cluster.Region⟩])
    else (.ok (), [])
  else (.ok (), [])

/-- `(m *Manager) readCluster` from `cluster_read.go`: run the internal read;
if the configured kubeconfig path is non-empty and `os.Stat` reports the file
as missing, invoke `doWriteKubeconfig` with the resolved cluster name and the
cluster's region (a failure there is fatal); then run
`readIAMIdentityMapping`.  Returns the result together with the list of
`doWriteKubeconfig` invocations performed. -/
def readCluster (env : ReadClusterEnv) : Except GoString Cluster × List KubeconfigCall :=
  match env.internalResult with
  | .error e => (.error (gs "reading cluster: " ++ e), [])
  | .ok cluster =>
    match kubeconfigStep env cluster with
    | (.error e, calls) => (.error (gs "writing missing kubeconfig on plan: " ++ e), calls)
    | (.ok _, calls) =>
      match (readIAMIdentityMapping cluster env.awsAuthConfigMap env.eksctl).1 with
      | .error e =>
        (.error (gs "reading aws-auth via eksctl get iamidentitymaping: " ++ e), calls)
      | .ok _ => (.ok cluster, calls)

/-- A raw `eksctl get iamidentitymapping -o json` output, decomposed into the
key tokens the normalization rewrites and the literal text between them. -/
inductive RawChunk
  | lit (s : GoString)
  | roleKey
  | userKey
deriving DecidableEq

/-- The raw JSON text of a chunk decomposition (`roleKey` renders as
`"rolearn"`, `userKey` as `"userarn"`). -/
def renderRaw : List RawChunk → GoString
  | [] => []
  | .lit s :: rest => s ++ renderRaw rest
  | .roleKey :: rest => gs "rolearn" ++ renderRaw rest
  | .userKey :: rest => gs "userarn" ++ renderRaw rest

/-- The same text after the first replacement pass (`rolearn` → `iamarn`). -/
def renderMid : List RawChunk → GoString
  | [] => []
  | .lit s :: rest => s ++ renderMid rest
  | .roleKey :: rest => gs "iamarn" ++ renderMid rest
  | .userKey :: rest => gs "userarn" ++ renderMid rest

/-- The fully normalized text: both key tokens renamed to `iamarn`, all
literal text unchanged. -/
def renderNormalized : List RawChunk → GoString
  | [] => []
  | .lit s :: rest => s ++ renderNormalized rest
  | .roleKey :: rest => gs "iamarn" ++ renderNormalized rest
  | .userKey :: rest => gs "iamarn" ++ renderNormalized rest

/-- `noStartB a p` states that no occurrence of the pattern `p` can begin
inside `a`, whatever text follows `a`: no nonempty suffix of `a` is a prefix
of `p`, and `p` is a prefix of no nonempty suffix of `a`. -/
def noStartB (a p : GoString) : Bool :=
  a.tails.all fun x => x.isEmpty || (!x.isPrefixOf p && !p.isPrefixOf x)

/-- `suffixNotPrefixB p q` states that no nonempty suffix of `p` is a prefix
of `q`. -/
def suffixNotPrefixB (p q : GoString) : Bool :=
  p.tails.all fun x => x.isEmpty || !x.isPrefixOf q

/-- The formal no-collision condition on a literal segment: neither key
pattern can occur in it or start inside it. -/
def cleanLitB (s : GoString) : Bool :=
  noStartB s (gs "rolearn") && noStartB s (gs "userarn")

/-- A chunk is clean when it is a key token or a collision-free literal. -/
def cleanChunkB : RawChunk → Bool
  | .lit s => cleanLitB s
  | .roleKey => true
  | .userKey => true

/-- All literal segments of the decomposition are collision-free. -/
def cleanChunksB (cs : List RawChunk) : Bool :=
  cs.all cleanChunkB

/-- Concrete fixture: a cluster-state record named `blue`. -/
def sampleStateBlue : ClusterState :=
  ⟨gs "blue", ⟨⟨gs "https://oidc.eks.eu-west-1.amazonaws.com/id/DEF456"⟩⟩,
   gs "arn:aws:iam::5678:role/y", ⟨gs "sg-cb", [gs "sg-0"]⟩⟩

/-- Concrete fixture: a cluster-state record named `red` (the end-to-end
example of the spec). -/
def sampleStateRed : ClusterState :=
  ⟨gs "red", ⟨⟨gs "https://oidc.eks.us-east-1.amazonaws.com/id/ABC123"⟩⟩,
   gs "arn:aws:iam::1234:role/x", ⟨gs "sg-cr", [gs "sg-1"]⟩⟩

/-- Concrete fixture: a second cluster-state record also named `red`. -/
def sampleStateRed2 : ClusterState :=
  ⟨gs "red", ⟨⟨gs "https://oidc.eks.us-east-2.amazonaws.com/id/ZZZ999"⟩⟩,
   gs "arn:aws:iam::9999:role/z", ⟨gs "sg-c2", [gs "sg-2"]⟩⟩

/-- Concrete fixture: a cluster named `red` with `iam.withOIDC` enabled. -/
def sampleCluster : Cluster := ⟨gs "red", gs "us-east-1", .ok true⟩

/-- Concrete fixture: an environment whose `get cluster` output parses to the
records `blue` and `red`. -/
def sampleEnvTwo : EksctlEnv :=
  ⟨.ok (), .ok (gs "raw"), fun _ => .ok [], fun _ => .ok [sampleStateBlue, sampleStateRed]⟩

/-- Concrete fixture: an environment whose `get cluster` output parses to the
single record `blue` (no match for `red`). -/
def sampleEnvNone : EksctlEnv :=
  ⟨.ok (), .ok (gs "raw"), fun _ => .ok [], fun _ => .ok [sampleStateBlue]⟩

/-- Concrete fixture: an environment whose `get cluster` output parses to two
records both named `red`. -/
def sampleEnvDup : EksctlEnv :=
  ⟨.ok (), .ok (gs "raw"), fun _ => .ok [], fun _ => .ok [sampleStateRed, sampleStateRed2]⟩

/-- Concrete fixture: a cluster named `red` with `iam.withOIDC` disabled. -/
def sampleClusterOff : Cluster := ⟨gs "red", gs "us-east-1", .ok false⟩

/-- Concrete fixture: two IAM mapping entries sharing the `iamarn` key but
differing in their remaining fields. -/
def dupMapA : IAMMapping := ⟨gs "arn:a", [(gs "username", gs "u1")]⟩

/-- Concrete fixture: the second entry with the same `iamarn` key. -/
def dupMapB : IAMMapping := ⟨gs "arn:a", [(gs "username", gs "u2")]⟩

/-- Concrete fixture: an IAM mapping entry with key `arn:x`. -/
def mapX : IAMMapping := ⟨gs "arn:x", []⟩

/-- Concrete fixture: an IAM mapping entry with key `arn:y`. -/
def mapY : IAMMapping := ⟨gs "arn:y", []⟩

/-- Concrete fixture: an environment for the IAM identity mapping read whose
remote fetch succeeds with a single entry. -/
def sampleIAMEnv : EksctlEnv :=
  ⟨.ok (), .ok (gs "out"), fun _ => .ok [mapX], fun _ => .ok []⟩

/-- Concrete fixture: a read environment whose configured kubeconfig path is
reported missing by `os.Stat`. -/
def sampleReadEnvMissing : ReadClusterEnv :=
  ⟨.ok sampleClusterOff, some (gs "/var/k"), fun _ => true, fun c => c.Name, .ok (),
   sampleIAMEnv, []⟩

/-- Concrete fixture: a read environment whose configured kubeconfig path
exists on disk. -/
def sampleReadEnvPresent : ReadClusterEnv :=
  ⟨.ok sampleClusterOff, some (gs "/var/k"), fun _ => false, fun c => c.Name, .ok (),
   sampleIAMEnv, []⟩

end EksctlRead

namespace EksctlRead

theorem drop_len_append (a b : GoString) : (a ++ b).drop a.length = b := by
  induction a with
  | nil => rfl
  | cons x t ih => simp [ih]

theorem isPrefixOf_self_append (a b : GoString) : a.isPrefixOf (a ++ b) = true := by
  induction a with
  | nil => simp [List.isPrefixOf]
  | cons x t ih => simp [List.isPrefixOf, ih]

theorem goTrimLeading_append (pre r : GoString) : goTrimLeading (pre ++ r) pre = r := by
  unfold goTrimLeading
  rw [if_pos (isPrefixOf_self_append pre r), drop_len_append]

theorem goSplitChar_ne_nil (s : GoString) (c : Char) : goSplitChar s c ≠ [] := by
  cases s with
  | nil => simp [goSplitChar]
  | cons a rest =>
    simp only [goSplitChar]
    split
    · simp
    · split <;> simp

theorem goSplitChar_headI_sep (l : GoString) (c : Char) :
    (goSplitChar (c :: l) c).headI = [] := by
  simp [goSplitChar]

theorem goSplitChar_headI_cons (x : Char) (l : GoString) (c : Char) (h : x ≠ c) :
    (goSplitChar (x :: l) c).headI = x :: (goSplitChar l c).headI := by
  simp only [goSplitChar, if_neg h]
  cases hr : goSplitChar l c with
  | nil => exact absurd hr (goSplitChar_ne_nil l c)
  | cons hh tt => simp

theorem goSplitChar_headI_append (a b : GoString) (c : Char) (h : c ∉ a) :
    (goSplitChar (a ++ c :: b) c).headI = a := by
  induction a with
  | nil => simpa using goSplitChar_headI_sep b c
  | cons x t ih =>
    have hx : x ≠ c := fun hxc => h (hxc ▸ List.mem_cons_self x t)
    rw [List.cons_append, goSplitChar_headI_cons x (t ++ c :: b) c hx,
      ih (fun hm => h (List.mem_cons_of_mem x hm))]

theorem goLastIndex_notin (s : GoString) (c : Char) (h : c ∉ s) :
    goLastIndex s c = -1 := by
  induction s with
  | nil => rfl
  | cons a rest ih =>
    have ha : a ≠ c := fun hac => h (hac ▸ List.mem_cons_self a rest)
    have hr := ih (fun hm => h (List.mem_cons_of_mem a hm))
    simp [goLastIndex, hr, ha]

theorem goLastIndex_append_sep (q r : GoString) (c : Char) (h : c ∉ r) :
    goLastIndex (q ++ c :: r) c = (q.length : Int) := by
  induction q with
  | nil =>
    simp only [List.nil_append, goLastIndex, goLastIndex_notin r c h]
    norm_num
  | cons x q' ih =>
    have hunfold : goLastIndex (x :: (q' ++ c :: r)) c =
        (if 0 ≤ goLastIndex (q' ++ c :: r) c then goLastIndex (q' ++ c :: r) c + 1
         else if x = c then 0 else -1) := rfl
    rw [List.cons_append, hunfold, ih, if_pos (Int.ofNat_nonneg _)]
    simp only [List.length_cons]
    push_cast
    ring

theorem goAfterLast_append (q r : GoString) (c : Char) (h : c ∉ r) :
    goAfterLast (q ++ c :: r) c = r := by
  unfold goAfterLast
  rw [goLastIndex_append_sep q r c h]
  have h1 : ((q.length : Int) + 1).toNat = q.length + 1 := by omega
  rw [h1]
  have h2 : q ++ c :: r = (q ++ [c]) ++ r := by simp
  have h3 : q.length + 1 = (q ++ [c]).length := by simp
  rw [h2, h3, drop_len_append]

/-- Claim C1: for every role ARN of the form `arn:aws:iam::ACCOUNT:role/...`
(the account containing no `:`) and every issuer of the form
`https://oidc.eks.REGION.amazonaws.com/id/ID` (the region containing no `.`,
the id containing no `/`), `GetOIDCProviderARN` returns exactly
`arn:aws:iam::ACCOUNT:oidc-provider/oidc.eks.REGION.amazonaws.com/id/ID`. -/
theorem getOIDCProviderARN_correct (s : ClusterState)
    (account roleRest region issuerId : GoString)
    (hacc : ':' ∉ account) (hreg : '.' ∉ region) (hid : '/' ∉ issuerId)
    (hrole : s.RoleArn = gs "arn:aws:iam::" ++ account ++ gs ":role/" ++ roleRest)
    (hiss : s.Identity.Oidc.Issuer =
      gs "https://oidc.eks." ++ region ++ gs ".amazonaws.com/id/" ++ issuerId) :
    s.GetOIDCProviderARN =
      gs "arn:aws:iam::" ++ account ++ gs ":oidc-provider/oidc.eks." ++ region ++
        gs ".amazonaws.com/id/" ++ issuerId := by
  have e1 : gs ":role/" = ':' :: gs "role/" := by decide
  have e2 : gs ".amazonaws.com/id/" = '.' :: gs "amazonaws.com/id/" := by decide
  have e3 : gs ".amazonaws.com/id/" = gs ".amazonaws.com/id" ++ ['/'] := by decide
  have hAccount : (goSplitChar (goTrimLeading
        (gs "arn:aws:iam::" ++ account ++ gs ":role/" ++ roleRest)
        (gs "arn:aws:iam::")) ':').headI = account := by
    have heq : gs "arn:aws:iam::" ++ account ++ gs ":role/" ++ roleRest
        = gs "arn:aws:iam::" ++ (account ++ ':' :: (gs "role/" ++ roleRest)) := by
      rw [e1]; simp [List.append_assoc]
    rw [heq, goTrimLeading_append, goSplitChar_headI_append _ _ _ hacc]
  have hRegion : (goSplitChar (goTrimLeading
        (gs "https://oidc.eks." ++ region ++ gs ".amazonaws.com/id/" ++ issuerId)
        (gs "https://oidc.eks.")) '.').headI = region := by
    have heq : gs "https://oidc.eks." ++ region ++ gs ".amazonaws.com/id/" ++ issuerId
        = gs "https://oidc.eks." ++ (region ++ '.' :: (gs "amazonaws.com/id/" ++ issuerId)) := by
      rw [e2]; simp [List.append_assoc]
    rw [heq, goTrimLeading_append, goSplitChar_headI_append _ _ _ hreg]
  have hId : goAfterLast
      (gs "https://oidc.eks." ++ region ++ gs ".amazonaws.com/id/" ++ issuerId) '/'
      = issuerId := by
    have heq : gs "https://oidc.eks." ++ region ++ gs ".amazonaws.com/id/" ++ issuerId
        = (gs "https://oidc.eks." ++ region ++ gs ".amazonaws.com/id") ++ '/' :: issuerId := by
      rw [e3]; simp [List.append_assoc]
    rw [heq, goAfterLast_append _ _ _ hid]
  simp only [ClusterState.GetOIDCProviderARN, hrole, hiss]
  rw [hAccount, hRegion, hId]

/-- Witness for C1, instantiated at the end-to-end example of the spec. -/
theorem getOIDCProviderARN_correct_witness :
    sampleStateRed.GetOIDCProviderARN =
      gs "arn:aws:iam::1234:oidc-provider/oidc.eks.us-east-1.amazonaws.com/id/ABC123" := by
  have h := getOIDCProviderARN_correct sampleStateRed (gs "1234") (gs "x")
    (gs "us-east-1") (gs "ABC123") (by decide) (by decide) (by decide) (by decide) (by decide)
  rw [h]
  decide

theorem selectClusterState_some_of_mem (l : List ClusterState) (n : GoString)
    (h : ∃ s ∈ l, s.Name = n) :
    ∃ s, selectClusterState l n = some s ∧ s ∈ l ∧ s.Name = n := by
  induction l with
  | nil => simp at h
  | cons a t ih =>
    by_cases ha : a.Name = n
    · exact ⟨a, by simp [selectClusterState, ha], List.mem_cons_self a t, ha⟩
    · obtain ⟨s, hs, hn⟩ := h
      rcases List.mem_cons.mp hs with rfl | hs'
      · exact absurd hn ha
      · obtain ⟨s', h1, h2, h3⟩ := ih ⟨s, hs', hn⟩
        exact ⟨s', by simp [selectClusterState, ha, h1], List.mem_cons_of_mem a h2, h3⟩

theorem selectClusterState_none (l : List ClusterState) (n : GoString)
    (h : ∀ s ∈ l, s.Name ≠ n) : selectClusterState l n = none := by
  induction l with
  | nil => rfl
  | cons a t ih =>
    simp [selectClusterState, h a (List.mem_cons_self a t),
      ih fun s hs => h s (List.mem_cons_of_mem a hs)]

theorem selectClusterState_append_first (pre : List ClusterState) (s : ClusterState)
    (post : List ClusterState) (n : GoString) (hpre : ∀ t ∈ pre, t.Name ≠ n)
    (hs : s.Name = n) : selectClusterState (pre ++ s :: post) n = some s := by
  induction pre with
  | nil => simp [selectClusterState, hs]
  | cons a t ih =>
    simp [selectClusterState, hpre a (List.mem_cons_self a t),
      ih fun x hx => hpre x (List.mem_cons_of_mem a hx)]

/-- Claim C2: for every parsed get-cluster array and target name, if some
entry's `Name` equals the target exactly, `runGetCluster` returns a matching
entry; if none does, it returns the not-found error naming the cluster. -/
theorem runGetCluster_matches (env : EksctlEnv) (cluster : Cluster) (out : GoString)
    (states : List ClusterState)
    (hcmd : env.newCommandOk = .ok ()) (hrun : env.runResult = .ok out)
    (hparse : env.parseClusterList out = .ok states) :
    ((∃ s ∈ states, s.Name = cluster.Name) →
      ∃ s, (runGetCluster env cluster).1 = .ok s ∧ s ∈ states ∧ s.Name = cluster.Name) ∧
    ((∀ s ∈ states, s.Name ≠ cluster.Name) →
      (runGetCluster env cluster).1 = .error (gs "no cluster found: " ++ cluster.Name)) := by
  constructor
  · intro h
    obtain ⟨s, h1, h2, h3⟩ := selectClusterState_some_of_mem states cluster.Name h
    exact ⟨s, by simp [runGetCluster, hcmd, hrun, hparse, h1], h2, h3⟩
  · intro h
    simp [runGetCluster, hcmd, hrun, hparse, selectClusterState_none states cluster.Name h]

/-- Witness for C2: with entries `blue`, `red` and target `red` the matching
entry is returned; with only `blue` the not-found error is returned. -/
theorem runGetCluster_matches_witness :
    (∃ s, (runGetCluster sampleEnvTwo sampleCluster).1 = .ok s ∧
       s ∈ [sampleStateBlue, sampleStateRed] ∧ s.Name = sampleCluster.Name) ∧
    (runGetCluster sampleEnvNone sampleCluster).1 =
      .error (gs "no cluster found: " ++ sampleCluster.Name) := by
  constructor
  · exact (runGetCluster_matches sampleEnvTwo sampleCluster (gs "raw")
      [sampleStateBlue, sampleStateRed] rfl rfl rfl).1 ⟨sampleStateRed, by decide, by decide⟩
  · exact (runGetCluster_matches sampleEnvNone sampleCluster (gs "raw")
      [sampleStateBlue] rfl rfl rfl).2 (by decide)

/-- Claim C10: when several parsed entries match the target name,
`runGetCluster` returns the first matching entry in array order. -/
theorem runGetCluster_first_match (env : EksctlEnv) (cluster : Cluster) (out : GoString)
    (pre post : List ClusterState) (s : ClusterState)
    (hcmd : env.newCommandOk = .ok ()) (hrun : env.runResult = .ok out)
    (hparse : env.parseClusterList out = .ok (pre ++ s :: post))
    (hpre : ∀ t ∈ pre, t.Name ≠ cluster.Name) (hs : s.Name = cluster.Name) :
    (runGetCluster env cluster).1 = .ok s := by
  simp [runGetCluster, hcmd, hrun, hparse,
    selectClusterState_append_first pre s post cluster.Name hpre hs]

/-- Witness for C10: with two entries both named `red`, the first one is
returned. -/
theorem runGetCluster_first_match_witness :
    (runGetCluster sampleEnvDup sampleCluster).1 = .ok sampleStateRed :=
  runGetCluster_first_match sampleEnvDup sampleCluster (gs "raw") [] [sampleStateRed2]
    sampleStateRed rfl rfl rfl (by decide) (by decide)

theorem prefOf_true {a b : GoString} (h : a <+: b) : a.isPrefixOf b = true := by
  simpa using h

theorem prefOf_false {a b : GoString} (h : a.isPrefixOf b = false) : ¬ a <+: b := by
  intro hc
  rw [prefOf_true hc] at h
  exact Bool.noConfusion h

theorem goReplaceAll_nil (old new : GoString) : goReplaceAll [] old new = [] := by
  rw [goReplaceAll]
  split <;> rfl

theorem goReplaceAll_cons_pos (a : Char) (rest old new : GoString) (hold : old ≠ [])
    (h : old.isPrefixOf (a :: rest) = true) :
    goReplaceAll (a :: rest) old new =
      new ++ goReplaceAll ((a :: rest).drop old.length) old new := by
  conv_lhs => rw [goReplaceAll]
  rw [dif_neg hold]
  simp [h]

theorem goReplaceAll_cons_neg (a : Char) (rest old new : GoString) (hold : old ≠ [])
    (h : old.isPrefixOf (a :: rest) = false) :
    goReplaceAll (a :: rest) old new = a :: goReplaceAll rest old new := by
  conv_lhs => rw [goReplaceAll]
  rw [dif_neg hold]
  simp [h]

theorem goReplaceAll_head_match (old b new : GoString) (hold : old ≠ []) :
    goReplaceAll (old ++ b) old new = new ++ goReplaceAll b old new := by
  cases old with
  | nil => exact absurd rfl hold
  | cons o ot =>
    have hpre : (o :: ot).isPrefixOf (o :: (ot ++ b)) = true := by
      have h := isPrefixOf_self_append (o :: ot) b
      rwa [List.cons_append] at h
    rw [List.cons_append, goReplaceAll_cons_pos o (ot ++ b) (o :: ot) new hold hpre]
    have hdrop : (o :: (ot ++ b)).drop (o :: ot).length = b := by
      have h := drop_len_append (o :: ot) b
      rwa [List.cons_append] at h
    rw [hdrop]

theorem noStartB_spec {a p : GoString} (h : noStartB a p = true) {x : GoString}
    (hx : x <:+ a) (hne : x ≠ []) : ¬ x <+: p ∧ ¬ p <+: x := by
  have hmem : x ∈ a.tails := (List.mem_tails x a).mpr hx
  have h2 := List.all_eq_true.mp h x hmem
  simp only [Bool.or_eq_true, Bool.and_eq_true, Bool.not_eq_true', List.isEmpty_iff] at h2
  rcases h2 with h2 | ⟨h3, h4⟩
  · exact absurd h2 hne
  · exact ⟨prefOf_false h3, prefOf_false h4⟩

theorem noStartB_tail {x : Char} {a p : GoString} (h : noStartB (x :: a) p = true) :
    noStartB a p = true := by
  rw [noStartB, List.all_eq_true] at h ⊢
  intro t ht
  exact h t (by rw [List.tails_cons]; exact List.mem_cons_of_mem _ ht)

theorem goReplaceAll_skip (a b old new : GoString) (hold : old ≠ [])
    (ha : noStartB a old = true) :
    goReplaceAll (a ++ b) old new = a ++ goReplaceAll b old new := by
  induction a with
  | nil => simp
  | cons x a' ih =>
    have hspec := noStartB_spec ha (List.suffix_refl (x :: a')) (by simp)
    have hnp : old.isPrefixOf (x :: (a' ++ b)) = false := by
      cases hcase : old.isPrefixOf (x :: (a' ++ b)) with
      | false => rfl
      | true =>
        exfalso
        have hpre : old <+: (x :: a') ++ b := by
          rw [List.cons_append]
          simpa using hcase
        rcases le_or_lt old.length (x :: a').length with hle | hlt
        · exact hspec.2 (List.prefix_of_prefix_length_le hpre (List.prefix_append _ _) hle)
        · exact hspec.1
            (List.prefix_of_prefix_length_le (List.prefix_append _ _) hpre (le_of_lt hlt))
    rw [List.cons_append, goReplaceAll_cons_neg x (a' ++ b) old new hold hnp,
      ih (noStartB_tail ha)]
    simp

theorem infixOfPref {a b : GoString} (h : a <+: b) : a <:+: b := by
  obtain ⟨t, rfl⟩ := h
  exact ⟨[], t, by simp⟩

theorem infixOfSuf {a b : GoString} (h : a <:+ b) : a <:+: b := by
  obtain ⟨t, rfl⟩ := h
  exact ⟨t, [], by simp⟩

theorem goReplaceAll_no_occur (s old new : GoString) (hold : old ≠ [])
    (h : ¬ old <:+: s) : goReplaceAll s old new = s := by
  induction s with
  | nil => exact goReplaceAll_nil old new
  | cons a rest ih =>
    have hnp : old.isPrefixOf (a :: rest) = false := by
      cases hcase : old.isPrefixOf (a :: rest) with
      | false => rfl
      | true => exact absurd (infixOfPref (by simpa using hcase)) h
    rw [goReplaceAll_cons_neg a rest old new hold hnp,
      ih fun hc => h (List.infix_cons hc)]

theorem suffix_append_cases {t a b : GoString} (h : t <:+ a ++ b) :
    t <:+ b ∨ ∃ x, x <:+ a ∧ x ≠ [] ∧ t = x ++ b := by
  induction a with
  | nil => left; simpa using h
  | cons c a' ih =>
    rw [List.cons_append, List.suffix_cons_iff] at h
    rcases h with rfl | h'
    · right; exact ⟨c :: a', List.suffix_refl _, by simp, by simp⟩
    · rcases ih h' with h1 | ⟨x, hx1, hx2, hx3⟩
      · left; exact h1
      · right; exact ⟨x, hx1.trans (List.suffix_cons c a'), hx2, hx3⟩

theorem suffixNotPrefixB_spec {p q : GoString} (h : suffixNotPrefixB p q = true)
    {x : GoString} (hx : x <:+ p) (hne : x ≠ []) : ¬ x <+: q := by
  have hmem : x ∈ p.tails := (List.mem_tails x p).mpr hx
  have h2 := List.all_eq_true.mp h x hmem
  simp only [Bool.or_eq_true, Bool.not_eq_true', List.isEmpty_iff] at h2
  rcases h2 with h2 | h3
  · exact absurd h2 hne
  · exact prefOf_false h3

theorem goReplaceAll_pref_invar (old new p : GoString) (hold : old ≠ [])
    (h1 : suffixNotPrefixB p new = true) (h2 : ¬ new <:+: p) :
    ∀ n s, s.length ≤ n → ∀ q, q <:+ p → q ≠ [] →
      q <+: goReplaceAll s old new → q <+: s := by
  intro n
  induction n with
  | zero =>
    intro s hs q hq hne hpre
    have hnil : s = [] := List.length_eq_zero.mp (Nat.le_zero.mp hs)
    subst hnil
    rw [goReplaceAll_nil] at hpre
    exact absurd (List.prefix_nil.mp hpre) hne
  | succ n ih =>
    intro s hs q hq hne hpre
    cases s with
    | nil =>
      rw [goReplaceAll_nil] at hpre
      exact absurd (List.prefix_nil.mp hpre) hne
    | cons a rest =>
      cases hcase : old.isPrefixOf (a :: rest) with
      | true =>
        rw [goReplaceAll_cons_pos a rest old new hold hcase] at hpre
        rcases le_or_lt q.length new.length with hle | hlt
        · exact absurd (List.prefix_of_prefix_length_le hpre (List.prefix_append _ _) hle)
            (suffixNotPrefixB_spec h1 hq hne)
        · exact absurd (List.infix_iff_prefix_suffix.mpr
            ⟨q, List.prefix_of_prefix_length_le (List.prefix_append _ _) hpre (le_of_lt hlt),
              hq⟩) h2
      | false =>
        rw [goReplaceAll_cons_neg a rest old new hold hcase] at hpre
        cases q with
        | nil => exact absurd rfl hne
        | cons b q' =>
          rw [List.cons_prefix_cons] at hpre
          obtain ⟨rfl, hq'⟩ := hpre
          by_cases hq'nil : q' = []
          · subst hq'nil
            simp
          · have hq'p : q' <:+ p := (List.suffix_cons b q').trans hq
            have hrest : rest.length ≤ n := by
              have := hs
              simp only [List.length_cons] at this
              omega
            have := ih rest hrest q' hq'p hq'nil hq'
            rw [List.cons_prefix_cons]
            exact ⟨rfl, this⟩

theorem goReplaceAll_no_pattern (old new : GoString) (hold : old ≠ [])
    (hE1 : ¬ old <:+: new)
    (hE2 : suffixNotPrefixB new old = true)
    (hI1 : suffixNotPrefixB old new = true)
    (hI2 : ¬ new <:+: old) :
    ∀ n s, s.length ≤ n → ¬ old <:+: goReplaceAll s old new := by
  intro n
  induction n with
  | zero =>
    intro s hs hinf
    have hnil : s = [] := List.length_eq_zero.mp (Nat.le_zero.mp hs)
    subst hnil
    rw [goReplaceAll_nil] at hinf
    exact hold (List.eq_nil_of_infix_nil hinf)
  | succ n ih =>
    intro s hs hinf
    cases s with
    | nil =>
      rw [goReplaceAll_nil] at hinf
      exact hold (List.eq_nil_of_infix_nil hinf)
    | cons a rest =>
      cases hcase : old.isPrefixOf (a :: rest) with
      | true =>
        rw [goReplaceAll_cons_pos a rest old new hold hcase] at hinf
        obtain ⟨t, hpre, hsuf⟩ := List.infix_iff_prefix_suffix.mp hinf
        have hslen : ((a :: rest).drop old.length).length ≤ n := by
          cases old with
          | nil => exact absurd rfl hold
          | cons o ot =>
            simp only [List.length_drop, List.length_cons] at *
            omega
        rcases suffix_append_cases hsuf with hts | ⟨x, hx1, hx2, rfl⟩
        · exact ih _ hslen (List.infix_iff_prefix_suffix.mpr ⟨t, hpre, hts⟩)
        · rcases le_or_lt old.length x.length with hle | hlt
          · exact hE1 (List.infix_iff_prefix_suffix.mpr
              ⟨x, List.prefix_of_prefix_length_le hpre (List.prefix_append _ _) hle, hx1⟩)
          · exact (suffixNotPrefixB_spec hE2 hx1 hx2)
              (List.prefix_of_prefix_length_le (List.prefix_append _ _) hpre (le_of_lt hlt))
      | false =>
        rw [goReplaceAll_cons_neg a rest old new hold hcase] at hinf
        have hrest : rest.length ≤ n := by
          simp only [List.length_cons] at hs
          omega
        rcases List.infix_cons_iff.mp hinf with hp | hi
        · cases old with
          | nil => exact absurd rfl hold
          | cons b old' =>
            rw [List.cons_prefix_cons] at hp
            obtain ⟨rfl, hold'⟩ := hp
            by_cases hnil : old' = []
            · subst hnil
              have : (b :: ([] : GoString)).isPrefixOf (b :: rest) = true := by
                simp [List.isPrefixOf]
              rw [this] at hcase
              exact Bool.noConfusion hcase
            · have hps : old' <+: rest :=
                goReplaceAll_pref_invar (b :: old') new (b :: old') hold hI1 hI2
                  rest.length rest le_rfl old' (List.suffix_cons b old') hnil hold'
              have : (b :: old').isPrefixOf (b :: rest) = true := by
                apply prefOf_true
                rw [List.cons_prefix_cons]
                exact ⟨rfl, hps⟩
              rw [this] at hcase
              exact Bool.noConfusion hcase
        · exact ih rest hrest hi

theorem goReplaceAll_preserves (old new p : GoString) (hold : old ≠ [])
    (hP1 : ¬ p <:+: new)
    (hP2 : suffixNotPrefixB new p = true)
    (hI1 : suffixNotPrefixB p new = true)
    (hI2 : ¬ new <:+: p) :
    ∀ n s, s.length ≤ n → ¬ p <:+: s → ¬ p <:+: goReplaceAll s old new := by
  intro n
  induction n with
  | zero =>
    intro s hs hns hinf
    have hnil : s = [] := List.length_eq_zero.mp (Nat.le_zero.mp hs)
    subst hnil
    rw [goReplaceAll_nil] at hinf
    exact hns hinf
  | succ n ih =>
    intro s hs hns hinf
    cases s with
    | nil =>
      rw [goReplaceAll_nil] at hinf
      exact hns hinf
    | cons a rest =>
      cases hcase : old.isPrefixOf (a :: rest) with
      | true =>
        rw [goReplaceAll_cons_pos a rest old new hold hcase] at hinf
        obtain ⟨t, hpre, hsuf⟩ := List.infix_iff_prefix_suffix.mp hinf
        have hslen : ((a :: rest).drop old.length).length ≤ n := by
          cases old with
          | nil => exact absurd rfl hold
          | cons o ot =>
            simp only [List.length_drop, List.length_cons] at *
            omega
        have hnsd : ¬ p <:+: (a :: rest).drop old.length := fun hc =>
          hns (hc.trans (infixOfSuf (List.drop_suffix _ _)))
        rcases suffix_append_cases hsuf with hts | ⟨x, hx1, hx2, rfl⟩
        · exact ih _ hslen hnsd (List.infix_iff_prefix_suffix.mpr ⟨t, hpre, hts⟩)
        · rcases le_or_lt p.length x.length with hle | hlt
          · exact hP1 (List.infix_iff_prefix_suffix.mpr
              ⟨x, List.prefix_of_prefix_length_le hpre (List.prefix_append _ _) hle, hx1⟩)
          · exact (suffixNotPrefixB_spec hP2 hx1 hx2)
              (List.prefix_of_prefix_length_le (List.prefix_append _ _) hpre (le_of_lt hlt))
      | false =>
        rw [goReplaceAll_cons_neg a rest old new hold hcase] at hinf
        have hrest : rest.length ≤ n := by
          simp only [List.length_cons] at hs
          omega
        have hnsr : ¬ p <:+: rest := fun hc => hns (List.infix_cons hc)
        rcases List.infix_cons_iff.mp hinf with hp | hi
        · cases p with
          | nil => exact hns ⟨[], a :: rest, by simp⟩
          | cons b p' =>
            rw [List.cons_prefix_cons] at hp
            obtain ⟨rfl, hp'⟩ := hp
            by_cases hnil : p' = []
            · subst hnil
              exact hns (infixOfPref (by simp))
            · have hps : p' <+: rest :=
                goReplaceAll_pref_invar old new (b :: p') hold hI1 hI2
                  rest.length rest le_rfl p' (List.suffix_cons b p') hnil hp'
              apply hns
              apply infixOfPref
              rw [List.cons_prefix_cons]
              exact ⟨rfl, hps⟩
        · exact ih rest hrest hnsr hi

theorem normalizeIAMJson_no_rolearn (s : GoString) :
    ¬ gs "rolearn" <:+: normalizeIAMJson s := by
  have h1 : ¬ gs "rolearn" <:+: goReplaceAll s (gs "rolearn") (gs "iamarn") :=
    goReplaceAll_no_pattern (gs "rolearn") (gs "iamarn") (by decide) (by decide)
      (by decide) (by decide) (by decide) s.length s le_rfl
  exact goReplaceAll_preserves (gs "userarn") (gs "iamarn") (gs "rolearn") (by decide)
    (by decide) (by decide) (by decide) (by decide) _ _ le_rfl h1

theorem normalizeIAMJson_no_userarn (s : GoString) :
    ¬ gs "userarn" <:+: normalizeIAMJson s :=
  goReplaceAll_no_pattern (gs "userarn") (gs "iamarn") (by decide) (by decide)
    (by decide) (by decide) (by decide) _ _ le_rfl

theorem normalizeIAMJson_idem (s : GoString) :
    normalizeIAMJson (normalizeIAMJson s) = normalizeIAMJson s := by
  have hstep : goReplaceAll (normalizeIAMJson s) (gs "rolearn") (gs "iamarn")
      = normalizeIAMJson s :=
    goReplaceAll_no_occur _ _ _ (by decide) (normalizeIAMJson_no_rolearn s)
  calc normalizeIAMJson (normalizeIAMJson s)
      = goReplaceAll (goReplaceAll (normalizeIAMJson s) (gs "rolearn") (gs "iamarn"))
          (gs "userarn") (gs "iamarn") := rfl
    _ = goReplaceAll (normalizeIAMJson s) (gs "userarn") (gs "iamarn") := by rw [hstep]
    _ = normalizeIAMJson s :=
        goReplaceAll_no_occur _ _ _ (by decide) (normalizeIAMJson_no_userarn s)

theorem cleanChunksB_head {c : RawChunk} {rest : List RawChunk}
    (h : cleanChunksB (c :: rest) = true) : cleanChunkB c = true := by
  rw [cleanChunksB, List.all_cons, Bool.and_eq_true] at h
  exact h.1

theorem cleanChunksB_tail {c : RawChunk} {rest : List RawChunk}
    (h : cleanChunksB (c :: rest) = true) : cleanChunksB rest = true := by
  rw [cleanChunksB, List.all_cons, Bool.and_eq_true] at h
  exact h.2

theorem renderRaw_pass1 (cs : List RawChunk) (h : cleanChunksB cs = true) :
    goReplaceAll (renderRaw cs) (gs "rolearn") (gs "iamarn") = renderMid cs := by
  induction cs with
  | nil => exact goReplaceAll_nil _ _
  | cons c rest ih =>
    cases c with
    | lit s0 =>
      have hccllit : cleanLitB s0 = true := cleanChunksB_head h
      have h1 : noStartB s0 (gs "rolearn") = true := by
        rw [cleanLitB, Bool.and_eq_true] at hccllit
        exact hccllit.1
      rw [show renderRaw (.lit s0 :: rest) = s0 ++ renderRaw rest from rfl,
        goReplaceAll_skip s0 _ _ _ (by decide) h1, ih (cleanChunksB_tail h)]
      rfl
    | roleKey =>
      rw [show renderRaw (.roleKey :: rest) = gs "rolearn" ++ renderRaw rest from rfl,
        goReplaceAll_head_match _ _ _ (by decide), ih (cleanChunksB_tail h)]
      rfl
    | userKey =>
      rw [show renderRaw (.userKey :: rest) = gs "userarn" ++ renderRaw rest from rfl,
        goReplaceAll_skip _ _ _ _ (by decide) (by decide), ih (cleanChunksB_tail h)]
      rfl

theorem renderMid_pass2 (cs : List RawChunk) (h : cleanChunksB cs = true) :
    goReplaceAll (renderMid cs) (gs "userarn") (gs "iamarn") = renderNormalized cs := by
  induction cs with
  | nil => exact goReplaceAll_nil _ _
  | cons c rest ih =>
    cases c with
    | lit s0 =>
      have hccllit : cleanLitB s0 = true := cleanChunksB_head h
      have h1 : noStartB s0 (gs "userarn") = true := by
        rw [cleanLitB, Bool.and_eq_true] at hccllit
        exact hccllit.2
      rw [show renderMid (.lit s0 :: rest) = s0 ++ renderMid rest from rfl,
        goReplaceAll_skip s0 _ _ _ (by decide) h1, ih (cleanChunksB_tail h)]
      rfl
    | roleKey =>
      rw [show renderMid (.roleKey :: rest) = gs "iamarn" ++ renderMid rest from rfl,
        goReplaceAll_skip _ _ _ _ (by decide) (by decide), ih (cleanChunksB_tail h)]
      rfl
    | userKey =>
      rw [show renderMid (.userKey :: rest) = gs "userarn" ++ renderMid rest from rfl,
        goReplaceAll_head_match _ _ _ (by decide), ih (cleanChunksB_tail h)]
      rfl

/-- Claim C5: the textual `rolearn`/`userarn` → `iamarn` normalization of
`runGetIAMIdentityMapping` is idempotent (renormalizing already-normalized
text changes nothing — proved for arbitrary text), and lossless on well-formed
`eksctl get iamidentitymapping` output without key collisions: for any
decomposition of the raw JSON into key tokens and collision-free literal
segments, normalization renames exactly the key tokens to `iamarn` and leaves
every other character unchanged. -/
theorem normalizeIAMJson_idem_lossless (cs : List RawChunk)
    (h : cleanChunksB cs = true) :
    (∀ s : GoString, normalizeIAMJson (normalizeIAMJson s) = normalizeIAMJson s) ∧
    normalizeIAMJson (renderRaw cs) = renderNormalized cs := by
  refine ⟨normalizeIAMJson_idem, ?_⟩
  rw [normalizeIAMJson, renderRaw_pass1 cs h, renderMid_pass2 cs h]

/-- Witness for C5, instantiated at the decomposition
`a · rolearn · b · userarn · c`. -/
theorem normalizeIAMJson_idem_lossless_witness :
    (cleanChunksB [RawChunk.lit (gs "a"), RawChunk.roleKey, RawChunk.lit (gs "b"),
        RawChunk.userKey, RawChunk.lit (gs "c")] = true) ∧
    normalizeIAMJson (renderRaw [RawChunk.lit (gs "a"), RawChunk.roleKey,
        RawChunk.lit (gs "b"), RawChunk.userKey, RawChunk.lit (gs "c")]) =
      renderNormalized [RawChunk.lit (gs "a"), RawChunk.roleKey, RawChunk.lit (gs "b"),
        RawChunk.userKey, RawChunk.lit (gs "c")] :=
  ⟨by decide, (normalizeIAMJson_idem_lossless _ (by decide)).2⟩

theorem sortByIamarn_sorted (l : List IAMMapping) : List.Sorted iamLe (sortByIamarn l) :=
  List.sorted_insertionSort iamLe l

theorem sortByIamarn_perm (l : List IAMMapping) : (sortByIamarn l).Perm l :=
  List.perm_insertionSort iamLe l

theorem sortByIamarn_eq_of_perm {a b : List IAMMapping} (hab : a.Perm b)
    (hb : b.Pairwise fun x y => x.iamarn ≠ y.iamarn) :
    sortByIamarn a = sortByIamarn b := by
  have hperm : (sortByIamarn a).Perm (sortByIamarn b) :=
    (sortByIamarn_perm a).trans (hab.trans (sortByIamarn_perm b).symm)
  have hna : (sortByIamarn a).Pairwise (fun x y => x.iamarn ≠ y.iamarn) :=
    (((sortByIamarn_perm a).trans hab).pairwise_iff fun h => Ne.symm h).mpr hb
  have hnb : (sortByIamarn b).Pairwise (fun x y => x.iamarn ≠ y.iamarn) :=
    ((sortByIamarn_perm b).pairwise_iff fun h => Ne.symm h).mpr hb
  have hlta : (sortByIamarn a).Pairwise iamLt :=
    List.Pairwise.imp₂ (fun _ _ hle hne => lt_of_le_of_ne hle hne)
      (sortByIamarn_sorted a) hna
  have hltb : (sortByIamarn b).Pairwise iamLt :=
    List.Pairwise.imp₂ (fun _ _ hle hne => lt_of_le_of_ne hle hne)
      (sortByIamarn_sorted b) hnb
  exact List.eq_of_perm_of_sorted hperm hlta hltb

/-- Counterexample to C4 as stated: with two local entries sharing the same
`iamarn` key (differing in their other fields), permuting the local list
before the sort changes the diff result — the sort orders ties by input
position, so the claim fails without a key-distinctness assumption. -/
theorem readIAMDiff_not_perm_invariant :
    [dupMapB, dupMapA].Perm [dupMapA, dupMapB] ∧
    readIAMDiff [dupMapA, dupMapB] [dupMapB, dupMapA] ≠
      readIAMDiff [dupMapA, dupMapB] [dupMapA, dupMapB] := by
  decide

/-- Claim C4 (amended): the IAM identity mapping comparison is
order-independent for lists whose entries carry pairwise-distinct `iamarn`
keys: permuting either input list before the ascending sort by `iamarn` yields
an identical diff result.  (Without distinctness the claim fails, see the
counterexample: the sort cannot discriminate entries with equal keys.) -/
theorem readIAMDiff_perm_invariant (r r' l l' : List IAMMapping)
    (hr : r'.Perm r) (hl : l'.Perm l)
    (hrk : r.Pairwise fun x y => x.iamarn ≠ y.iamarn)
    (hlk : l.Pairwise fun x y => x.iamarn ≠ y.iamarn) :
    readIAMDiff r' l' = readIAMDiff r l := by
  unfold readIAMDiff
  rw [sortByIamarn_eq_of_perm hr hrk, sortByIamarn_eq_of_perm hl hlk]

/-- Witness for C4 (amended), at two-element lists with distinct keys. -/
theorem readIAMDiff_perm_invariant_witness :
    readIAMDiff [mapY, mapX] [mapY, mapX] = readIAMDiff [mapX, mapY] [mapX, mapY] :=
  readIAMDiff_perm_invariant [mapX, mapY] [mapY, mapX] [mapX, mapY] [mapY, mapX]
    (by decide) (by decide) (by decide) (by decide)

/-- Claim C6: when `iam.withOIDC` parses as disabled, both
`readIAMIdentityMapping` and `loadOIDCProviderURLAndARN` return success
immediately: no eksctl command is invoked and no attribute is written. -/
theorem oidcDisabled_noop (cluster : Cluster) (ms : List IAMMapping)
    (env env' : EksctlEnv) (h : cluster.IAMWithOIDCEnabled = .ok false) :
    readIAMIdentityMapping cluster ms env = (.ok (), ⟨[], []⟩) ∧
    loadOIDCProviderURLAndARN cluster env' = (.ok (), ⟨[], []⟩) := by
  constructor
  · rw [readIAMIdentityMapping, h]
  · rw [loadOIDCProviderURLAndARN, h]

/-- Witness for C6, at a cluster with `iam.withOIDC` disabled. -/
theorem oidcDisabled_noop_witness :
    readIAMIdentityMapping sampleClusterOff [] sampleEnvTwo = (.ok (), ⟨[], []⟩) ∧
    loadOIDCProviderURLAndARN sampleClusterOff sampleEnvTwo = (.ok (), ⟨[], []⟩) :=
  oidcDisabled_noop sampleClusterOff [] sampleEnvTwo sampleEnvTwo rfl

/-- Claim C7: a detected IAM identity mapping mismatch is never an error:
`readIAMIdentityMapping` writes nothing to the store on any input, and once
the gate reports OIDC enabled and the remote fetch succeeds, it returns
success regardless of the diff outcome between the remote and local lists. -/
theorem readIAM_mismatch_nonfatal (cluster : Cluster) (ms : List IAMMapping)
    (env : EksctlEnv) (iams : List IAMMapping) :
    (readIAMIdentityMapping cluster ms env).2.attrWrites = [] ∧
    (cluster.IAMWithOIDCEnabled = .ok true →
      (runGetIAMIdentityMapping env cluster).1 = .ok iams →
      (readIAMIdentityMapping cluster ms env).1 = .ok ()) := by
  constructor
  · rw [readIAMIdentityMapping]
    cases cluster.IAMWithOIDCEnabled with
    | error e => rfl
    | ok b =>
      cases b
      · rfl
      · rcases hp : runGetIAMIdentityMapping env cluster with ⟨res, calls⟩
        cases res <;> rfl
  · intro hoidc hrun
    rw [readIAMIdentityMapping, hoidc]
    rcases hp : runGetIAMIdentityMapping env cluster with ⟨res, calls⟩
    rw [hp] at hrun
    cases res with
    | error e => exact absurd hrun (by simp)
    | ok l => rfl

/-- Witness for C7, at a cluster with OIDC enabled and a successful remote
fetch. -/
theorem readIAM_mismatch_nonfatal_witness :
    (readIAMIdentityMapping sampleCluster [mapY] sampleIAMEnv).2.attrWrites = [] ∧
    (readIAMIdentityMapping sampleCluster [mapY] sampleIAMEnv).1 = .ok () :=
  ⟨(readIAM_mismatch_nonfatal sampleCluster [mapY] sampleIAMEnv [mapX]).1,
   (readIAM_mismatch_nonfatal sampleCluster [mapY] sampleIAMEnv [mapX]).2 rfl rfl⟩

/-- Claim C8: on success with OIDC enabled and a matching cluster state,
`loadOIDCProviderURLAndARN` writes exactly three attributes — the OIDC
provider URL (the issuer), the derived OIDC provider ARN, and the live
security group id list — and nothing else. -/
theorem loadOIDC_writes_exactly (cluster : Cluster) (env : EksctlEnv)
    (state : ClusterState)
    (h1 : cluster.IAMWithOIDCEnabled = .ok true)
    (h2 : (runGetCluster env cluster).1 = .ok state) :
    loadOIDCProviderURLAndARN cluster env =
      (.ok (), ⟨(runGetCluster env cluster).2,
        [(AttrKey.oidcProviderURL, AttrValue.str state.Identity.Oidc.Issuer),
         (AttrKey.oidcProviderARN, AttrValue.str state.GetOIDCProviderARN),
         (AttrKey.securityGroupIDs, AttrValue.strList state.GetSecurityGroupIDs)]⟩) := by
  rw [loadOIDCProviderURLAndARN, h1]
  rcases hp : runGetCluster env cluster with ⟨res, calls⟩
  rw [hp] at h2
  cases res with
  | error e => exact absurd h2 (by simp)
  | ok st =>
    have hst : st = state := by simpa using h2
    subst hst
    rfl

/-- Witness for C8, at the environment returning the `blue`/`red` records. -/
theorem loadOIDC_writes_exactly_witness :
    loadOIDCProviderURLAndARN sampleCluster sampleEnvTwo =
      (.ok (), ⟨(runGetCluster sampleEnvTwo sampleCluster).2,
        [(AttrKey.oidcProviderURL, AttrValue.str sampleStateRed.Identity.Oidc.Issuer),
         (AttrKey.oidcProviderARN, AttrValue.str sampleStateRed.GetOIDCProviderARN),
         (AttrKey.securityGroupIDs,
           AttrValue.strList sampleStateRed.GetSecurityGroupIDs)]⟩) :=
  loadOIDC_writes_exactly sampleCluster sampleEnvTwo sampleStateRed rfl rfl

theorem kubeconfigStep_calls (env : ReadClusterEnv) (c : Cluster) :
    (kubeconfigStep env c).2 =
      if env.kubeconfigPathAttr.getD [] ≠ [] ∧
         env.statIsNotExist (env.kubeconfigPathAttr.getD []) = true
      then [⟨env.getClusterName c, c.Region⟩] else [] := by
  unfold kubeconfigStep
  by_cases h1 : env.kubeconfigPathAttr.getD [] ≠ []
  · by_cases h2 : env.statIsNotExist (env.kubeconfigPathAttr.getD []) = true
    · rw [if_pos h1, if_pos h2, if_pos ⟨h1, h2⟩]
    · rw [if_pos h1, if_neg h2, if_neg fun hc => h2 hc.2]
  · rw [if_neg h1, if_neg fun hc => h1 hc.1]

theorem readCluster_trace (env : ReadClusterEnv) (c : Cluster)
    (hint : env.internalResult = .ok c) :
    (readCluster env).2 = (kubeconfigStep env c).2 := by
  simp only [readCluster, hint]
  rcases hk : kubeconfigStep env c with ⟨res, calls⟩
  cases res with
  | error e => rfl
  | ok u =>
    cases (readIAMIdentityMapping c env.awsAuthConfigMap env.eksctl).1 <;> rfl

/-- Claim C3: in `readCluster` (after a successful internal read), when the
configured kubeconfig path attribute is non-empty and the file is missing, the
write-kubeconfig procedure is invoked exactly once, with the cluster's
resolved name and region, before the function returns; when the path is empty
or the file exists, it is not invoked at all. -/
theorem readCluster_kubeconfig_repair (env : ReadClusterEnv) (c : Cluster)
    (hint : env.internalResult = .ok c) :
    ((env.kubeconfigPathAttr.getD [] ≠ [] ∧
        env.statIsNotExist (env.kubeconfigPathAttr.getD []) = true) →
      (readCluster env).2 = [⟨env.getClusterName c, c.Region⟩]) ∧
    ((env.kubeconfigPathAttr.getD [] = [] ∨
        env.statIsNotExist (env.kubeconfigPathAttr.getD []) = false) →
      (readCluster env).2 = []) := by
  have ht := readCluster_trace env c hint
  have hk := kubeconfigStep_calls env c
  constructor
  · intro hcond
    rw [ht, hk, if_pos hcond]
  · intro hcond
    rw [ht, hk, if_neg]
    rintro ⟨ha, hb⟩
    rcases hcond with h | h
    · exact ha h
    · rw [h] at hb
      exact Bool.noConfusion hb

/-- Witness for C3: with a missing kubeconfig the call trace has exactly the
one expected invocation; with an existing file it is empty. -/
theorem readCluster_kubeconfig_repair_witness :
    (readCluster sampleReadEnvMissing).2 =
      [⟨sampleReadEnvMissing.getClusterName sampleClusterOff, sampleClusterOff.Region⟩] ∧
    (readCluster sampleReadEnvPresent).2 = [] :=
  ⟨(readCluster_kubeconfig_repair sampleReadEnvMissing sampleClusterOff rfl).1
      ⟨by decide, rfl⟩,
   (readCluster_kubeconfig_repair sampleReadEnvPresent sampleClusterOff rfl).2
      (Or.inr rfl)⟩

/-- Claim C9: `GetOIDCProviderARN` is total and has no error path: for every
cluster state — malformed role ARNs and issuers included — it returns a string
of the composed ARN shape, assembled from the three extracted fragments. -/
theorem getOIDCProviderARN_total (s : ClusterState) :
    ∃ account region issuerId : GoString,
      s.GetOIDCProviderARN =
        gs "arn:aws:iam::" ++ account ++ gs ":oidc-provider/oidc.eks." ++ region ++
          gs ".amazonaws.com/id/" ++ issuerId :=
  ⟨_, _, _, rfl⟩

end EksctlRead
